import Mathlib

/-!
Shallow embedding of the tile-grid coordinate algebra of the `crisscross`
crate (file `src/position/tile_position.rs`), together with the parts of
the crate it depends on (`util::round`, `util::floats_equal`,
`position::WorldCoords`) that are described only in the design document.

Modelling conventions:
* `f32` values are embedded as exact rationals (`ℚ`); decimal rounding is
  explicit.
* `u32` tile indices are embedded as `ℕ`, with the range bound `x < 2^32`
  carried as a hypothesis where a statement depends on it; `i64` values are
  embedded as `ℤ`, and the two sign-changing casts the source performs
  (`i64` arithmetic, `as u32`) are modelled by explicit wrapping so that
  overflow behaviour is visible.
* `debug_assert!` is modelled as a guard: the function returns `none`
  exactly when the assertion would fire (debug-build semantics).
-/

namespace Crisscross

/-- Round-half-away-from-zero to an integer, the rounding mode of Rust's
`f32::round`. -/
def roundAway (q : ℚ) : ℤ :=
if 0 ≤ q then ⌊q + 1 / 2⌋ else -⌊-q + 1 / 2⌋

/-- Modelled from the spec: `util::round(value, digits)` (not under `src/`),
deterministic decimal rounding to `digits` decimal digits, using the
round-half-away-from-zero mode of Rust's `round`. -/
def round (v : ℚ) (digits : ℕ) : ℚ :=
(roundAway (v * 10 ^ digits) : ℚ) / 10 ^ digits

/-- Modelled from the spec: `util::floats_equal` (not under `src/`),
tolerance-based equality of fractional fields, with the epsilon derived from
the fixed decimal precision (8 digits) used to round those fields. -/
def floats_equal (a b : ℚ) : Bool :=
decide (|a - b| < 1 / 10 ^ 8)

/-- Fixed decimal precision of the stored fractional offsets
(`TILE_POSITION_PRECISION` in the source). -/
def TILE_POSITION_PRECISION : ℕ := 8

/-- An unsigned grid cell index plus a fractional offset within the cell
(`TilePosition` in the source; `x`, `y` are `u32`, `rel_x`, `rel_y` are
`f32`). -/
structure TilePosition where
  x : ℕ
  y : ℕ
  rel_x : ℚ
  rel_y : ℚ
deriving DecidableEq

/-- The signed counterpart used for deltas and off-grid intermediate results
(`SignedTilePosition` in the source; `x`, `y` are `i64`). -/
structure SignedTilePosition where
  x : ℤ
  y : ℤ
  rel_x : ℚ
  rel_y : ℚ
deriving DecidableEq

/-- The `PartialEq` instance of `TilePosition`: integer fields compare
exactly, fractional fields compare by tolerance. -/
def TilePosition.eq (a b : TilePosition) : Bool :=
a.x == b.x && a.y == b.y && floats_equal a.rel_x b.rel_x && floats_equal a.rel_y b.rel_y

/-- The `PartialEq` instance of `SignedTilePosition`. -/
def SignedTilePosition.eq (a b : SignedTilePosition) : Bool :=
a.x == b.x && a.y == b.y && floats_equal a.rel_x b.rel_x && floats_equal a.rel_y b.rel_y

/-- `TilePosition::new`: total constructor, rounds the fractional fields to
the fixed precision. -/
def TilePosition.new (x y : ℕ) (rel_x rel_y : ℚ) : TilePosition :=
⟨x, y, round rel_x TILE_POSITION_PRECISION, round rel_y TILE_POSITION_PRECISION⟩

/-- `SignedTilePosition::new`: total constructor, rounds the fractional
fields to the fixed precision. -/
def SignedTilePosition.new (x y : ℤ) (rel_x rel_y : ℚ) : SignedTilePosition :=
⟨x, y, round rel_x TILE_POSITION_PRECISION, round rel_y TILE_POSITION_PRECISION⟩

/-- Two's-complement wrapping of an unbounded integer into the `i64` range,
the release-build semantics of overflowing `i64` arithmetic. -/
def wrap64 (z : ℤ) : ℤ :=
(z + 2 ^ 63) % 2 ^ 64 - 2 ^ 63

/-- The Rust cast `as u32` applied to a (non-negative) integer: reduction
modulo `2^32`. -/
def toU32 (z : ℤ) : ℕ :=
(z % 2 ^ 32).toNat

/-- Modelled from the spec: `WorldCoords` (not under `src/`), a continuous
point in world units carrying the tile size it was built with. -/
structure WorldCoords where
  x : ℚ
  y : ℚ
  tile_size : ℚ
deriving DecidableEq

/-- Modelled from the spec: `WorldCoords::new(x, y, tile_size)`, total. -/
def WorldCoords.new (x y tile_size : ℚ) : WorldCoords :=
⟨x, y, tile_size⟩

/-- Modelled from the spec: `WorldCoords::from_tile_position`, the total
conversion `world = tile * tile_size + rel` on each axis. -/
def WorldCoords.from_tile_position (tp : TilePosition) (tile_size : ℚ) : WorldCoords :=
WorldCoords.new ((tp.x : ℚ) * tile_size + tp.rel_x) ((tp.y : ℚ) * tile_size + tp.rel_y) tile_size

/-- Modelled from the spec: `WorldCoords::to_signed_tile_position`,
`tile = floor(x / tile_size)`, `rel = x - tile * tile_size`, keeping the
tile index signed with no validity check; fractional fields are rounded by
the `SignedTilePosition::new` constructor. -/
def WorldCoords.to_signed_tile_position (w : WorldCoords) : SignedTilePosition :=
SignedTilePosition.new ⌊w.x / w.tile_size⌋ ⌊w.y / w.tile_size⌋
  (w.x - (⌊w.x / w.tile_size⌋ : ℚ) * w.tile_size)
  (w.y - (⌊w.y / w.tile_size⌋ : ℚ) * w.tile_size)

/-- `TilePosition::to_world_coords` (source line 90). -/
def TilePosition.to_world_coords (tp : TilePosition) (tile_size : ℚ) : WorldCoords :=
WorldCoords.from_tile_position tp tile_size

/-- The fallible narrowing `TryFrom<SignedTilePosition> for TilePosition`
(source lines 128-151): succeeds when on each axis the tile index is
non-negative and the effective coordinate `index + offset` is non-negative;
on success the indices go through the `as u32` cast. -/
def TilePosition.try_from (stp : SignedTilePosition) : Except String TilePosition :=
if 0 ≤ stp.x ∧ 0 ≤ (stp.x : ℚ) + stp.rel_x ∧ 0 ≤ stp.y ∧ 0 ≤ (stp.y : ℚ) + stp.rel_y then
  Except.ok ⟨toU32 stp.x, toU32 stp.y, stp.rel_x, stp.rel_y⟩
else
  Except.error "Tile Position is off grid, cannot convert"

/-- Modelled from the spec: the conversion `WorldCoords → TilePosition`,
the signed conversion followed by the fallible narrowing. -/
def WorldCoords.to_tile_position (w : WorldCoords) : Except String TilePosition :=
TilePosition.try_from w.to_signed_tile_position

/-- The total widening `From<TilePosition> for SignedTilePosition`
(source lines 117-126): exact `i64::from` on the indices, fractional fields
copied. -/
def SignedTilePosition.fromTilePosition (tp : TilePosition) : SignedTilePosition :=
⟨(tp.x : ℤ), (tp.y : ℤ), tp.rel_x, tp.rel_y⟩

/-- `TilePosition::axes` (source lines 79-82): the effective coordinate
`tile index + fractional offset` on each axis. -/
def TilePosition.axes (tp : TilePosition) : ℚ × ℚ :=
((tp.x : ℚ) + tp.rel_x, (tp.y : ℚ) + tp.rel_y)

/-- `TilePosition::delta_to` (source lines 84-88): per-axis differences of
the effective coordinates of the target minus those of `self`. -/
def TilePosition.delta_to (tp target : TilePosition) : ℚ × ℚ :=
(target.axes.1 - tp.axes.1, target.axes.2 - tp.axes.2)

/-- Rust's `f32::hypot`, embedded as the exact Euclidean norm. -/
noncomputable def hypot (dx dy : ℚ) : ℝ :=
Real.sqrt ((dx : ℝ) ^ 2 + (dy : ℝ) ^ 2)

/-- `TilePosition::distance_relative` (source lines 63-69). -/
noncomputable def TilePosition.distance_relative (tp other : TilePosition) : ℝ :=
hypot (tp.delta_to other).1 (tp.delta_to other).2

/-- `TilePosition::is_same_tile` (source lines 71-77): compares the integer
tile indices only. -/
def TilePosition.is_same_tile (tp other : TilePosition) : Bool :=
tp.x == other.x && tp.y == other.y

/-- The subtraction `ops::Sub for &TilePosition` (source lines 193-204):
indices widen to `i64` and subtract, fractional offsets subtract directly,
and the result goes through `SignedTilePosition::new`. -/
def TilePosition.sub (a rhs : TilePosition) : SignedTilePosition :=
SignedTilePosition.new (wrap64 ((a.x : ℤ) - (rhs.x : ℤ))) (wrap64 ((a.y : ℤ) - (rhs.y : ℤ)))
  (a.rel_x - rhs.rel_x) (a.rel_y - rhs.rel_y)

/-- The addition `ops::Add for &TilePosition` (source lines 213-224):
indices widen to `i64` and add, fractional offsets add directly, and the
result goes through `SignedTilePosition::new`. -/
def TilePosition.add (a : TilePosition) (rhs : SignedTilePosition) : SignedTilePosition :=
SignedTilePosition.new (wrap64 ((a.x : ℤ) + rhs.x)) (wrap64 ((a.y : ℤ) + rhs.y))
  (a.rel_x + rhs.rel_x) (a.rel_y + rhs.rel_y)

/-- `SignedTilePosition::normalized` (source lines 105-114): the
`debug_assert!` band check is modelled as a guard (`none` exactly when an
assertion fires); inside the band the source rebuilds the position through
`WorldCoords::new(x as f32 + rel_x, y as f32 + rel_y, tile_size)` and its
signed tile conversion. -/
def SignedTilePosition.normalized (stp : SignedTilePosition) (tile_size : ℚ) : Option SignedTilePosition :=
let dts := 2 * tile_size
if -dts < stp.rel_x ∧ stp.rel_x < dts ∧ -dts < stp.rel_y ∧ stp.rel_y < dts then
  some (WorldCoords.new ((stp.x : ℚ) + stp.rel_x) ((stp.y : ℚ) + stp.rel_y) tile_size).to_signed_tile_position
else
  none

/-! Helper lemmas about the rounding and wrapping primitives. -/

theorem roundAway_intCast (n : ℤ) : roundAway (n : ℚ) = n := by
  unfold roundAway
  split_ifs with h
  · rw [Int.floor_int_add]
    norm_num
  · rw [show (-(n : ℚ) + 1 / 2) = ((-n : ℤ) : ℚ) + (1 / 2 : ℚ) by simp,
      Int.floor_int_add]
    norm_num

theorem abs_roundAway_sub (q : ℚ) : |(roundAway q : ℚ) - q| ≤ 1 / 2 := by
  unfold roundAway
  rw [abs_le]
  split_ifs with h
  · have h1 : (⌊q + 1 / 2⌋ : ℚ) ≤ q + 1 / 2 := Int.floor_le _
    have h2 : q + 1 / 2 - 1 < (⌊q + 1 / 2⌋ : ℚ) := Int.sub_one_lt_floor _
    constructor <;> linarith
  · have h1 : (⌊-q + 1 / 2⌋ : ℚ) ≤ -q + 1 / 2 := Int.floor_le _
    have h2 : -q + 1 / 2 - 1 < (⌊-q + 1 / 2⌋ : ℚ) := Int.sub_one_lt_floor _
    constructor <;> push_cast <;> linarith

theorem roundAway_nonneg {q : ℚ} (h : 0 ≤ q) : 0 ≤ roundAway q := by
  unfold roundAway
  rw [if_pos h]
  exact Int.floor_nonneg.mpr (by linarith)

theorem abs_round_sub (v : ℚ) (d : ℕ) : |round v d - v| ≤ 1 / (2 * 10 ^ d) := by
  unfold round
  have hd : (0 : ℚ) < 10 ^ d := by positivity
  have key : (roundAway (v * 10 ^ d) : ℚ) / 10 ^ d - v
      = ((roundAway (v * 10 ^ d) : ℚ) - v * 10 ^ d) / 10 ^ d := by
    field_simp
    ring
  rw [key, abs_div, abs_of_pos hd, div_le_div_iff₀ hd (by positivity)]
  have h1 := abs_roundAway_sub (v * 10 ^ d)
  calc |(roundAway (v * 10 ^ d) : ℚ) - v * 10 ^ d| * (2 * 10 ^ d)
      ≤ (1 / 2) * (2 * 10 ^ d) := by
        apply mul_le_mul_of_nonneg_right h1 (by positivity)
    _ = 1 * 10 ^ d := by ring

theorem round_nonneg {v : ℚ} (d : ℕ) (h : 0 ≤ v) : 0 ≤ round v d := by
  unfold round
  have : 0 ≤ roundAway (v * 10 ^ d) := roundAway_nonneg (by positivity)
  positivity

theorem wrap64_eq_self {z : ℤ} (h1 : -(2 ^ 63) ≤ z) (h2 : z < 2 ^ 63) : wrap64 z = z := by
  unfold wrap64
  omega

theorem toU32_eq {z : ℤ} (h1 : 0 ≤ z) (h2 : z < 2 ^ 32) : (toU32 z : ℤ) = z := by
  unfold toU32
  omega

theorem floats_equal_round (v : ℚ) : floats_equal (round v 8) v = true := by
  unfold floats_equal
  rw [decide_eq_true_iff]
  have h := abs_round_sub v 8
  calc |round v 8 - v| ≤ 1 / (2 * 10 ^ 8) := h
    _ < 1 / 10 ^ 8 := by norm_num

/-! Theorems settling the specification claims. -/

/-- C8: `is_same_tile(a, b)` returns true if and only if the integer tile
indices are equal, ignoring the fractional offsets, and in particular it is
reflexive. -/
theorem C8_is_same_tile_iff : ∀ a b : TilePosition,
    (a.is_same_tile b = true ↔ a.x = b.x ∧ a.y = b.y) ∧ a.is_same_tile a = true := by
  intro a b
  constructor
  · simp [TilePosition.is_same_tile]
  · simp [TilePosition.is_same_tile]

/-- C7: `distance_relative(a, b)` equals the Euclidean norm of the per-axis
differences of the effective coordinates (tile index plus fractional offset)
of `b` minus those of `a`, in tile units. -/
theorem C7_distance_relative_euclidean : ∀ a b : TilePosition,
    a.distance_relative b =
      Real.sqrt ((((b.x : ℝ) + (b.rel_x : ℝ)) - ((a.x : ℝ) + (a.rel_x : ℝ))) ^ 2 +
        (((b.y : ℝ) + (b.rel_y : ℝ)) - ((a.y : ℝ) + (a.rel_y : ℝ))) ^ 2) := by
  intro a b
  unfold TilePosition.distance_relative hypot TilePosition.delta_to TilePosition.axes
  congr 1
  push_cast
  ring

/-- C5: `normalized(tile_size)` checks that both fractional offsets lie
strictly within the band `(-2 * tile_size, 2 * tile_size)`: the assertion
(modelled as the `none` outcome, the fatal debug-build path) fires exactly
when some offset is outside the band, and never fires under the
precondition. -/
theorem C5_normalized_guard : ∀ (stp : SignedTilePosition) (ts : ℚ),
    (stp.normalized ts).isSome = true ↔
      (-(2 * ts) < stp.rel_x ∧ stp.rel_x < 2 * ts ∧
       -(2 * ts) < stp.rel_y ∧ stp.rel_y < 2 * ts) := by
  intro stp ts
  by_cases h : -(2 * ts) < stp.rel_x ∧ stp.rel_x < 2 * ts ∧
      -(2 * ts) < stp.rel_y ∧ stp.rel_y < 2 * ts
  · simp [SignedTilePosition.normalized, h]
  · simp [SignedTilePosition.normalized, h]

/-- C2: subtraction of two `TilePosition`s widens the `u32` indices to `i64`
and subtracts exactly (no wraparound occurs for any `u32` index values),
subtracts the fractional offsets directly (rounded at construction), and
does not renormalize: a result offset may be negative, or at least a tile
size (exhibited for tile size 1). -/
theorem C2_sub_widened :
    (∀ a b : TilePosition, a.x < 2 ^ 32 → a.y < 2 ^ 32 → b.x < 2 ^ 32 → b.y < 2 ^ 32 →
      (a.sub b).x = (a.x : ℤ) - (b.x : ℤ) ∧ (a.sub b).y = (a.y : ℤ) - (b.y : ℤ) ∧
      (a.sub b).rel_x = round (a.rel_x - b.rel_x) 8 ∧
      (a.sub b).rel_y = round (a.rel_y - b.rel_y) 8) ∧
    ((⟨0, 0, 0, 0⟩ : TilePosition).sub ⟨0, 0, 1 / 2, 0⟩).rel_x < 0 ∧
    (1 : ℚ) ≤ ((⟨0, 0, 3 / 2, 0⟩ : TilePosition).sub ⟨0, 0, 0, 0⟩).rel_x := by
  refine ⟨?_, ?_, ?_⟩
  · intro a b hax hay hbx hby
    refine ⟨wrap64_eq_self (by omega) (by omega), wrap64_eq_self (by omega) (by omega), rfl, rfl⟩
  · show round ((0 : ℚ) - 1 / 2) 8 < 0
    norm_num [round, roundAway]
  · show (1 : ℚ) ≤ round ((3 : ℚ) / 2 - 0) 8
    norm_num [round, roundAway]

/-- C2 witness: the subtraction law applied at the concrete pair
`(2, 3, 0, 0)` and `(1, 4, 0, 0)`. -/
theorem C2_witness :
    ((⟨2, 3, 0, 0⟩ : TilePosition).sub ⟨1, 4, 0, 0⟩).x = ((2 : ℕ) : ℤ) - ((1 : ℕ) : ℤ) ∧
    ((⟨2, 3, 0, 0⟩ : TilePosition).sub ⟨1, 4, 0, 0⟩).y = ((3 : ℕ) : ℤ) - ((4 : ℕ) : ℤ) ∧
    ((⟨2, 3, 0, 0⟩ : TilePosition).sub ⟨1, 4, 0, 0⟩).rel_x = round ((0 : ℚ) - 0) 8 ∧
    ((⟨2, 3, 0, 0⟩ : TilePosition).sub ⟨1, 4, 0, 0⟩).rel_y = round ((0 : ℚ) - 0) 8 :=
  C2_sub_widened.1 ⟨2, 3, 0, 0⟩ ⟨1, 4, 0, 0⟩ (by decide) (by decide) (by decide) (by decide)

/-- C6 (amended): addition of a `TilePosition` and a `SignedTilePosition`
widens the `u32` indices to `i64` and adds, provided each widened sum lies
within the `i64` range; fractional offsets add directly (rounded at
construction) with no renormalization. -/
theorem C6_add_widened (p : TilePosition) (q : SignedTilePosition)
    (h1 : -(2 ^ 63) ≤ (p.x : ℤ) + q.x) (h2 : (p.x : ℤ) + q.x < 2 ^ 63)
    (h3 : -(2 ^ 63) ≤ (p.y : ℤ) + q.y) (h4 : (p.y : ℤ) + q.y < 2 ^ 63) :
    (p.add q).x = (p.x : ℤ) + q.x ∧ (p.add q).y = (p.y : ℤ) + q.y ∧
    (p.add q).rel_x = round (p.rel_x + q.rel_x) 8 ∧
    (p.add q).rel_y = round (p.rel_y + q.rel_y) 8 :=
  ⟨wrap64_eq_self h1 h2, wrap64_eq_self h3 h4, rfl, rfl⟩

/-- C6 witness: the addition law applied at the concrete pair
`(1, 2, 0, 0)` and `(3, -4, 0, 0)`. -/
theorem C6_witness :
    ((⟨1, 2, 0, 0⟩ : TilePosition).add ⟨3, -4, 0, 0⟩).x = ((1 : ℕ) : ℤ) + 3 ∧
    ((⟨1, 2, 0, 0⟩ : TilePosition).add ⟨3, -4, 0, 0⟩).y = ((2 : ℕ) : ℤ) + -4 ∧
    ((⟨1, 2, 0, 0⟩ : TilePosition).add ⟨3, -4, 0, 0⟩).rel_x = round ((0 : ℚ) + 0) 8 ∧
    ((⟨1, 2, 0, 0⟩ : TilePosition).add ⟨3, -4, 0, 0⟩).rel_y = round ((0 : ℚ) + 0) 8 :=
  C6_add_widened ⟨1, 2, 0, 0⟩ ⟨3, -4, 0, 0⟩ (by decide) (by decide) (by decide) (by decide)

/-- C6 counterexample: at `p = (1, 0, 0, 0)` and `q` with tile index
`2^63 - 1` the widened sum exceeds the `i64` range, so the addition does not
produce the widened sum (the `i64` arithmetic wraps). -/
theorem C6_counterexample :
    ((⟨1, 0, 0, 0⟩ : TilePosition).add ⟨2 ^ 63 - 1, 0, 0, 0⟩).x ≠ ((1 : ℕ) : ℤ) + (2 ^ 63 - 1) := by
  decide

/-- C1 counterexample: the position with tile index `x = -1` and offset
`rel_x = 1.5` has non-negative effective coordinates on both axes, yet the
narrowing fails: success is not characterized by the effective coordinates
alone. -/
theorem C1_counterexample :
    (0 : ℚ) ≤ (((-1 : ℤ) : ℚ) + 3 / 2) ∧ (0 : ℚ) ≤ (((0 : ℤ) : ℚ) + 0) ∧
    (TilePosition.try_from ⟨-1, 0, 3 / 2, 0⟩).isOk = false := by
  refine ⟨by norm_num, by norm_num, ?_⟩
  norm_num [TilePosition.try_from, Except.isOk, Except.toBool]

/-- C1 (amended): the narrowing `SignedTilePosition → TilePosition` succeeds
exactly when on each axis both the tile index and the effective coordinate
(index plus offset) are non-negative; in that case (for indices in `u32`
range) it returns the same tile indices and fractional offsets; the
boundary examples `(0, 0, -0.1, 0.0)` and `(0, 0, 0.1, 0.0)` fail and
succeed respectively. -/
theorem C1_try_from_characterization :
    (∀ stp : SignedTilePosition,
      ((TilePosition.try_from stp).isOk = true ↔
        0 ≤ stp.x ∧ 0 ≤ (stp.x : ℚ) + stp.rel_x ∧ 0 ≤ stp.y ∧ 0 ≤ (stp.y : ℚ) + stp.rel_y) ∧
      (0 ≤ stp.x → 0 ≤ (stp.x : ℚ) + stp.rel_x → 0 ≤ stp.y → 0 ≤ (stp.y : ℚ) + stp.rel_y →
        stp.x < 2 ^ 32 → stp.y < 2 ^ 32 →
        TilePosition.try_from stp = Except.ok ⟨stp.x.toNat, stp.y.toNat, stp.rel_x, stp.rel_y⟩)) ∧
    (TilePosition.try_from ⟨0, 0, -1 / 10, 0⟩).isOk = false ∧
    (TilePosition.try_from ⟨0, 0, 1 / 10, 0⟩).isOk = true := by
  refine ⟨?_, ?_, ?_⟩
  · intro stp
    constructor
    · by_cases h : 0 ≤ stp.x ∧ 0 ≤ (stp.x : ℚ) + stp.rel_x ∧ 0 ≤ stp.y ∧ 0 ≤ (stp.y : ℚ) + stp.rel_y
      · simp [TilePosition.try_from, h, Except.isOk, Except.toBool]
      · simp [TilePosition.try_from, h, Except.isOk, Except.toBool]
    · intro h1 h2 h3 h4 h5 h6
      have ex : toU32 stp.x = stp.x.toNat := by unfold toU32; omega
      have ey : toU32 stp.y = stp.y.toNat := by unfold toU32; omega
      unfold TilePosition.try_from
      rw [if_pos ⟨h1, h2, h3, h4⟩, ex, ey]
  · norm_num [TilePosition.try_from, Except.isOk, Except.toBool]
  · norm_num [TilePosition.try_from, Except.isOk, Except.toBool]

/-- C1 witness: the amended characterization applied at the concrete
position `(3, 4, 0, 0)`. -/
theorem C1_witness :
    TilePosition.try_from ⟨3, 4, 0, 0⟩
      = Except.ok ⟨(3 : ℤ).toNat, (4 : ℤ).toNat, 0, 0⟩ :=
  (C1_try_from_characterization.1 ⟨3, 4, 0, 0⟩).2 (by decide) (by simp) (by decide) (by simp)
    (by decide) (by decide)

/-- C9: the two concrete subtraction scenarios of the specification, under
the tolerance-based equality of the position types. -/
theorem C9_subtract_scenarios :
    SignedTilePosition.eq ((TilePosition.new 2 3 0 0).sub (TilePosition.new 1 4 0 0))
      (SignedTilePosition.new 1 (-1) 0 0) = true ∧
    SignedTilePosition.eq
      ((TilePosition.new 1 1 (1 / 2) (1 / 5)).sub (TilePosition.new 1 4 1 (1 / 10)))
      (SignedTilePosition.new 0 (-3) (-1 / 2) (1 / 10)) = true := by
  constructor
  · norm_num [SignedTilePosition.eq, TilePosition.sub, TilePosition.new, SignedTilePosition.new,
      floats_equal, round, roundAway, TILE_POSITION_PRECISION, wrap64]
  · norm_num [SignedTilePosition.eq, TilePosition.sub, TilePosition.new, SignedTilePosition.new,
      floats_equal, round, roundAway, TILE_POSITION_PRECISION, wrap64]

/-- C10: widening a `TilePosition` with non-negative offsets to a
`SignedTilePosition` and narrowing back succeeds and returns the same
position; whereas the total constructor accepts the denormalized offset
`rel_x = -0.5` at `x = 0` without a range check, and narrowing that
position back fails with the off-grid error. -/
theorem C10_widen_narrow_round_trip :
    (∀ p : TilePosition, p.x < 2 ^ 32 → p.y < 2 ^ 32 → 0 ≤ p.rel_x → 0 ≤ p.rel_y →
      TilePosition.try_from (SignedTilePosition.fromTilePosition p) = Except.ok p) ∧
    (TilePosition.new 0 0 (-1 / 2) 0).rel_x = -1 / 2 ∧
    (TilePosition.try_from
      (SignedTilePosition.fromTilePosition (TilePosition.new 0 0 (-1 / 2) 0))).isOk = false := by
  refine ⟨?_, ?_, ?_⟩
  · intro p hx hy hrx hry
    have h1 : (0 : ℤ) ≤ ((p.x : ℕ) : ℤ) := Int.natCast_nonneg _
    have h2 : (0 : ℚ) ≤ (((p.x : ℕ) : ℤ) : ℚ) + p.rel_x := by
      apply add_nonneg _ hrx
      push_cast
      positivity
    have h3 : (0 : ℤ) ≤ ((p.y : ℕ) : ℤ) := Int.natCast_nonneg _
    have h4 : (0 : ℚ) ≤ (((p.y : ℕ) : ℤ) : ℚ) + p.rel_y := by
      apply add_nonneg _ hry
      push_cast
      positivity
    have ex : toU32 ((p.x : ℕ) : ℤ) = p.x := by unfold toU32; omega
    have ey : toU32 ((p.y : ℕ) : ℤ) = p.y := by unfold toU32; omega
    unfold TilePosition.try_from SignedTilePosition.fromTilePosition
    rw [if_pos ⟨h1, h2, h3, h4⟩]
    simp only [ex, ey]
  · norm_num [TilePosition.new, round, roundAway, TILE_POSITION_PRECISION]
  · norm_num [TilePosition.try_from, SignedTilePosition.fromTilePosition, Except.isOk, Except.toBool,
      TilePosition.new, round, roundAway, TILE_POSITION_PRECISION]

/-- C10 witness: the widen-then-narrow round trip applied at the concrete
position `(3, 4, 0, 0)`. -/
theorem C10_witness :
    TilePosition.try_from (SignedTilePosition.fromTilePosition ⟨3, 4, 0, 0⟩)
      = Except.ok ⟨3, 4, 0, 0⟩ :=
  C10_widen_narrow_round_trip.1 ⟨3, 4, 0, 0⟩ (by decide) (by decide) (le_refl 0) (le_refl 0)

/-- C3 counterexample: for the denormalized position `(0, 0, 5, 0)` (offset
not below the tile size) and `tile_size = 1 > 0`, the round trip through
`WorldCoords` yields `(5, 0, 0, 0)`, which is not tolerance-equal to the
original. -/
theorem C3_counterexample :
    (0 : ℚ) < 1 ∧
    ((⟨0, 0, 5, 0⟩ : TilePosition).to_world_coords 1).to_tile_position
      = Except.ok (⟨5, 0, 0, 0⟩ : TilePosition) ∧
    TilePosition.eq ⟨5, 0, 0, 0⟩ ⟨0, 0, 5, 0⟩ = false := by
  refine ⟨one_pos, ?_, ?_⟩
  · norm_num [TilePosition.to_world_coords, WorldCoords.from_tile_position, WorldCoords.new,
      WorldCoords.to_tile_position, WorldCoords.to_signed_tile_position, SignedTilePosition.new,
      TilePosition.try_from, toU32, round, roundAway, TILE_POSITION_PRECISION]
    decide
  · norm_num [TilePosition.eq, floats_equal]

/-- C3 (amended): for every `TilePosition` with normalized fractional
offsets (`0 ≤ rel < tile_size` on both axes, indices in `u32` range) and
every `tile_size > 0`, converting to `WorldCoords` and back yields a
position that is tolerance-equal to the original. -/
theorem C3_round_trip (p : TilePosition) (ts : ℚ) (hts : 0 < ts)
    (hx : p.x < 2 ^ 32) (hy : p.y < 2 ^ 32)
    (hrx0 : 0 ≤ p.rel_x) (hrx1 : p.rel_x < ts)
    (hry0 : 0 ≤ p.rel_y) (hry1 : p.rel_y < ts) :
    (p.to_world_coords ts).to_tile_position
      = Except.ok ⟨p.x, p.y, round p.rel_x 8, round p.rel_y 8⟩ ∧
    TilePosition.eq ⟨p.x, p.y, round p.rel_x 8, round p.rel_y 8⟩ p = true := by
  have hts0 : ts ≠ 0 := ne_of_gt hts
  have hfx : ⌊((p.x : ℚ) * ts + p.rel_x) / ts⌋ = ((p.x : ℕ) : ℤ) := by
    rw [add_div, mul_div_cancel_right₀ _ hts0,
      show ((p.x : ℕ) : ℚ) = (((p.x : ℕ) : ℤ) : ℚ) by push_cast; ring, Int.floor_int_add,
      show ⌊p.rel_x / ts⌋ = 0 from Int.floor_eq_zero_iff.mpr
        ⟨div_nonneg hrx0 hts.le, (div_lt_one hts).mpr hrx1⟩, add_zero]
  have hfy : ⌊((p.y : ℚ) * ts + p.rel_y) / ts⌋ = ((p.y : ℕ) : ℤ) := by
    rw [add_div, mul_div_cancel_right₀ _ hts0,
      show ((p.y : ℕ) : ℚ) = (((p.y : ℕ) : ℤ) : ℚ) by push_cast; ring, Int.floor_int_add,
      show ⌊p.rel_y / ts⌋ = 0 from Int.floor_eq_zero_iff.mpr
        ⟨div_nonneg hry0 hts.le, (div_lt_one hts).mpr hry1⟩, add_zero]
  have key : (p.to_world_coords ts).to_signed_tile_position
      = ⟨((p.x : ℕ) : ℤ), ((p.y : ℕ) : ℤ), round p.rel_x 8, round p.rel_y 8⟩ := by
    unfold TilePosition.to_world_coords WorldCoords.from_tile_position WorldCoords.new
      WorldCoords.to_signed_tile_position SignedTilePosition.new TILE_POSITION_PRECISION
    dsimp only
    rw [hfx, hfy]
    simp only [SignedTilePosition.mk.injEq]
    refine ⟨trivial, trivial, ?_, ?_⟩
    · congr 1
      push_cast
      ring
    · congr 1
      push_cast
      ring
  have ex : toU32 ((p.x : ℕ) : ℤ) = p.x := by unfold toU32; omega
  have ey : toU32 ((p.y : ℕ) : ℤ) = p.y := by unfold toU32; omega
  constructor
  · unfold WorldCoords.to_tile_position
    rw [key]
    unfold TilePosition.try_from
    rw [if_pos ⟨Int.natCast_nonneg _,
      add_nonneg (by push_cast; positivity) (round_nonneg 8 hrx0),
      Int.natCast_nonneg _,
      add_nonneg (by push_cast; positivity) (round_nonneg 8 hry0)⟩]
    rw [ex, ey]
  · unfold TilePosition.eq
    simp [floats_equal_round]

/-- C3 witness: the amended round-trip law applied at the concrete position
`(3, 4, 0, 0)` with `tile_size = 1`. -/
theorem C3_witness :
    ((⟨3, 4, 0, 0⟩ : TilePosition).to_world_coords 1).to_tile_position
      = Except.ok ⟨3, 4, round 0 8, round 0 8⟩ ∧
    TilePosition.eq ⟨3, 4, round 0 8, round 0 8⟩ ⟨3, 4, 0, 0⟩ = true :=
  C3_round_trip ⟨3, 4, 0, 0⟩ 1 zero_lt_one (by decide) (by decide) (le_refl 0) zero_lt_one
    (le_refl 0) zero_lt_one

/-- C4: evaluating `b + (a - b)` and then `normalized(tile_size)` at
`a = (1, 0, 0, 0)`, `b = (0, 0, 0, 0)` and `tile_size = 2` yields
`(0, 0, 1, 0)`, which is not tolerance-equal to `a`: the inverse law fails
because `normalized` feeds the tile-unit quantity `x + rel_x` to
`WorldCoords` as a world coordinate; at `tile_size = 1` the same
computation does return `a`. -/
theorem C4_normalized_failing_input :
    (((⟨0, 0, 0, 0⟩ : TilePosition).add
        ((⟨1, 0, 0, 0⟩ : TilePosition).sub ⟨0, 0, 0, 0⟩)).normalized 2)
      = some ⟨0, 0, 1, 0⟩ ∧
    SignedTilePosition.eq ⟨0, 0, 1, 0⟩
      (SignedTilePosition.fromTilePosition ⟨1, 0, 0, 0⟩) = false ∧
    (((⟨0, 0, 0, 0⟩ : TilePosition).add
        ((⟨1, 0, 0, 0⟩ : TilePosition).sub ⟨0, 0, 0, 0⟩)).normalized 1)
      = some (SignedTilePosition.fromTilePosition ⟨1, 0, 0, 0⟩) := by
  refine ⟨?_, ?_, ?_⟩
  · norm_num [TilePosition.add, TilePosition.sub, SignedTilePosition.new,
      SignedTilePosition.normalized, WorldCoords.new, WorldCoords.to_signed_tile_position,
      wrap64, round, roundAway, TILE_POSITION_PRECISION]
  · norm_num [SignedTilePosition.eq, SignedTilePosition.fromTilePosition]
  · norm_num [TilePosition.add, TilePosition.sub, SignedTilePosition.new,
      SignedTilePosition.normalized, WorldCoords.new, WorldCoords.to_signed_tile_position,
      SignedTilePosition.fromTilePosition, wrap64, round, roundAway, TILE_POSITION_PRECISION]

end Crisscross
